import Mathlib

/-!
Verification of the canonicalization-and-duplicate-detection engine of the
Anvi repository (`fixes/apply_fixes.py` and `ai/cleaning.py`).

The Python string operations used by the engine (`str.strip`, `str.lower`,
`str.split`, `str.title`, slicing, substring test, `str.isnumeric`) are
modelled here as executable functions over `List Char` (ASCII scope).
External collaborators that are not part of the repository are parameters of
the embedding: the `rapidfuzz` similarity scorer (`fuzz.WRatio`) is a
function `String → String → ℚ`, the `nameparser.HumanName` formatter is a
function `String → String`, and the People Data Labs HTTP normalizer is a
function returning `Option String` (`none` models any failure, which the
code swallows).  Wall-clock timestamps on change-log entries are outside the
model.
-/

namespace PyStr

/-- Model of Python's notion of a cased (letter) character, ASCII scope:
`A`-`Z` or `a`-`z`. -/
def isCased (c : Char) : Bool :=
  decide ((65 ≤ c.toNat ∧ c.toNat ≤ 90) ∨ (97 ≤ c.toNat ∧ c.toNat ≤ 122))

/-- Model of Python's `str.isnumeric` for one ASCII character: a digit. -/
def isDigitChar (c : Char) : Bool :=
  decide (48 ≤ c.toNat ∧ c.toNat ≤ 57)

/-- Characters dropped from both ends of a Python `str.strip()`. -/
def stripChars (l : List Char) : List Char :=
  ((l.dropWhile Char.isWhitespace).reverse.dropWhile Char.isWhitespace).reverse

/-- Model of Python `str.strip()`. -/
def pyStrip (s : String) : String :=
  ⟨stripChars s.data⟩

/-- Model of Python `str.lower()` (per-character case mapping). -/
def pyLower (s : String) : String :=
  ⟨s.data.map Char.toLower⟩

/-- Model of Python slicing `s[:n]`. -/
def strTake (n : Nat) (s : String) : String :=
  ⟨s.data.take n⟩

/-- Decides whether the first list is a prefix of the second. -/
def prefixOf : List Char → List Char → Bool
  | [], _ => true
  | _ :: _, [] => false
  | a :: as, b :: bs => a == b && prefixOf as bs

/-- Decides whether the first list occurs contiguously inside the second. -/
def listInfix (needle : List Char) : List Char → Bool
  | [] => prefixOf needle []
  | c :: cs => prefixOf needle (c :: cs) || listInfix needle cs

/-- Model of Python's substring test `needle in hay`. -/
def containsSub (needle hay : String) : Bool :=
  listInfix needle.data hay.data

/-- Model of Python `str.isnumeric()` (ASCII scope): nonempty and all digits. -/
def isNumericStr (s : String) : Bool :=
  decide (s.data ≠ []) && s.data.all isDigitChar

/-- Accumulator pass behind `words`: `acc` holds the reversed characters of
the word currently being read. -/
def wordsAux : List Char → List Char → List (List Char)
  | [], acc => if acc = [] then [] else [acc.reverse]
  | c :: cs, acc =>
    if c.isWhitespace then
      (if acc = [] then wordsAux cs [] else acc.reverse :: wordsAux cs [])
    else wordsAux cs (c :: acc)

/-- The word list of Python `str.split()` (split on whitespace runs,
dropping empty pieces). -/
def words (l : List Char) : List (List Char) :=
  wordsAux l []

/-- Model of the source's `normalize_whitespace`:
`" ".join(str(s).split()).strip()` (the final strip is a no-op on the
join of nonempty whitespace-free words). -/
def normalize_whitespace (s : String) : String :=
  ⟨List.intercalate [' '] (words s.data)⟩

/-- One character of Python `str.title()`: a cased character is uppercased
when the previous character was not cased, lowercased otherwise. -/
def titleChar (prevCased : Bool) (c : Char) : Char :=
  if isCased c then (if prevCased then c.toLower else c.toUpper) else c

/-- Character stream of Python `str.title()`, tracking whether the previous
input character was cased. -/
def titleMap : Bool → List Char → List Char
  | _, [] => []
  | prev, c :: cs => titleChar prev c :: titleMap (isCased c) cs

/-- Model of Python `str.title()`. -/
def pyTitle (s : String) : String :=
  ⟨titleMap false s.data⟩

/-- Model of Python `sep.join(parts)`. -/
def joinStr (sep : String) (parts : List String) : String :=
  ⟨List.intercalate sep.data (parts.map String.data)⟩

end PyStr

namespace Scorer

/-- One dynamic-programming row update for the longest-common-subsequence
table: `prev` is the previous row's tail, `diag` the entry diagonally
up-left, `left` the entry just written in the current row. -/
def lcsRow : List Nat → Nat → Nat → List Char → Char → List Nat
  | _, _, _, [], _ => []
  | [], _, _, _ :: _, _ => []
  | p :: ps, diag, left, cb :: bs, ca =>
    let cur := if ca == cb then diag + 1 else max left p
    cur :: lcsRow ps p cur bs ca

/-- Length of a longest common subsequence, by dynamic programming. -/
def lcsLen (a b : List Char) : Nat :=
  let row0 : List Nat := List.replicate (b.length + 1) 0
  let final := a.foldl
    (fun prev ca =>
      match prev with
      | p :: ps => 0 :: lcsRow ps p 0 b ca
      | [] => [])
    row0
  final.getLast?.getD 0

/-- A concrete instance of the engine's external string-similarity scorer
(spec §4.1 and glossary: a numeric 0-100 measure of string closeness,
token-overlap/edit-distance based).  This is the normalized indel
similarity `200 * lcs(a,b) / (|a| + |b|)`, used to instantiate the
abstract scorer parameter in concrete evaluations. -/
def ratioModel (a b : String) : ℚ :=
  if a.data.length + b.data.length = 0 then 100
  else 200 * (lcsLen a.data b.data : ℚ) / (a.data.length + b.data.length)

/-- Model of `rapidfuzz.process.extractOne`: best-scoring choice, earliest
winner on ties (a later candidate replaces the best only on a strictly
greater score). -/
def extract_one (sim : String → String → ℚ) (q : String) :
    List String → Option (String × ℚ)
  | [] => none
  | c :: cs =>
    some (cs.foldl
      (fun best c' => if best.2 < sim q c' then (c', sim q c') else best)
      (c, sim q c))

end Scorer

namespace Fixes

/-- Outcome of reading one backing CSV file: absent, unparseable (both read
attempts in `_load_csv_safe` fail), or a table of named columns of optional
cells. -/
inductive LoadResult where
  | missing : LoadResult
  | malformed : LoadResult
  | ok : List (String × List (Option String)) → LoadResult

/-- A loaded CSV table: named columns of optional (possibly-NaN) cells. -/
abbrev Df := List (String × List (Option String))

/-- Model of `_load_csv_safe`: `None` when the file is missing or both parse
attempts raise, otherwise the parsed table. -/
def load_csv_safe : LoadResult → Option Df
  | .missing => none
  | .malformed => none
  | .ok df => some df

/-- Model of `_choose_column`: first candidate wins; for each candidate an
exact (lowercased) column-name match is preferred, then a substring match. -/
def choose_column (df : Df) : List String → Option String
  | [] => none
  | cand :: rest =>
    match (df.map Prod.fst).find?
        (fun c => PyStr.pyLower c == PyStr.pyLower cand) with
    | some c => some c
    | none =>
      match (df.map Prod.fst).find?
          (fun c => PyStr.containsSub (PyStr.pyLower cand) (PyStr.pyLower c)) with
      | some c => some c
      | none => choose_column df rest

/-- Accumulator pass behind `unique_first`. -/
def uniqueAux (seen : List String) : List String → List String
  | [] => []
  | x :: xs =>
    if x ∈ seen then uniqueAux seen xs
    else x :: uniqueAux (x :: seen) xs

/-- Model of pandas `Series.unique()`: deduplicate keeping the first
occurrence of each value, preserving order. -/
def unique_first (l : List String) : List String :=
  uniqueAux [] l

/-- The cells of a named column (empty when the column is absent). -/
def col_values (df : Df) (col : String) : List (Option String) :=
  (List.lookup col df).getD []

/-- The reference vocabularies of `build_reference_sets`: per type, the
original-case list used for fuzzy choices and the lowercased membership
set. -/
structure Refs where
  country_list : List String
  country_set : List String
  name_list : List String
  name_set : List String
  city_list : List String
  city_set : List String

/-- One vocabulary of `build_reference_sets`:
`df[col].dropna().astype(str).str.strip().unique().tolist()`, empty when the
load failed or no candidate column exists. -/
def ref_list_of (r : LoadResult) (cands : List String) : List String :=
  match load_csv_safe r with
  | none => []
  | some df =>
    match choose_column df cands with
    | none => []
    | some col =>
      unique_first (((col_values df col).filterMap id).map PyStr.pyStrip)

/-- Model of `build_reference_sets` over the three backing CSV files. -/
def build_reference_sets (countriesR namesR citiesR : LoadResult) : Refs :=
  let country_list := ref_list_of countriesR
    ["name", "country", "country_name", "C1", "Name"]
  let name_list := ref_list_of namesR ["name", "full_name"]
  let city_list := ref_list_of citiesR ["city", "city_ascii", "name", "place"]
  ⟨country_list, country_list.map PyStr.pyLower,
   name_list, name_list.map PyStr.pyLower,
   city_list, city_list.map PyStr.pyLower⟩

/-- The reference state when every backing vocabulary failed to load. -/
def emptyRefs : Refs := ⟨[], [], [], [], [], []⟩

/-- Model of `smart_titlecase_name`; `hn` is the external
`nameparser.HumanName` round trip `str(HumanName(name))`. -/
def smart_titlecase_name (hn : String → String) (name : String) : String :=
  if PyStr.pyStrip name = "" then ""
  else PyStr.normalize_whitespace (hn name)

/-- Model of `titlecase_text`: `normalize_whitespace(str(s)).title()`. -/
def titlecase_text (s : String) : String :=
  PyStr.pyTitle (PyStr.normalize_whitespace s)

/-- Model of `fuzzy_match_one`: the best match and its score (returned even
below the cutoff — both branches of the source return `match, score`), or
`(None, 0)` for an empty query or empty choice list. -/
def fuzzy_match_one (sim : String → String → ℚ) (query : String)
    (choices : List String) : Option String × ℚ :=
  if query = "" ∨ choices = [] then (none, 0)
  else
    match Scorer.extract_one sim query choices with
    | some (m, score) => (some m, score)
    | none => (none, 0)

/-- Model of the inner `correct_value_by_type` of `apply_fixes`:
exact lowercased membership first, then fuzzy match against the original
case list (cutoff `fuzzy_threshold` for country/city, hard-coded 92 for
name), then fallback normalization.  The `if m ≠ ""` conjunct models the
Python truthiness test `if match and score >= ...`. -/
def correct_value_by_type (refs : Refs) (sim : String → String → ℚ)
    (hn : String → String) (fuzzy_threshold : ℚ)
    (val : String) (col_type : String) : String :=
  let s := PyStr.pyStrip val
  if s = "" then ""
  else
    let low := PyStr.pyLower s
    if col_type = "country" then
      if refs.country_set.contains low then titlecase_text s
      else
        match fuzzy_match_one sim s refs.country_list with
        | (some m, score) =>
          if m ≠ "" ∧ fuzzy_threshold ≤ score then titlecase_text m
          else titlecase_text s
        | (none, _) => titlecase_text s
    else if col_type = "city" then
      if refs.city_set.contains low then titlecase_text s
      else
        match fuzzy_match_one sim s refs.city_list with
        | (some m, score) =>
          if m ≠ "" ∧ fuzzy_threshold ≤ score then titlecase_text m
          else titlecase_text s
        | (none, _) => titlecase_text s
    else if col_type = "name" then
      if refs.name_set.contains low then smart_titlecase_name hn s
      else if 0 < refs.name_list.length then
        match fuzzy_match_one sim s refs.name_list with
        | (some m, score) =>
          if m ≠ "" ∧ (92 : ℚ) ≤ score then smart_titlecase_name hn m
          else smart_titlecase_name hn s
        | (none, _) => smart_titlecase_name hn s
      else smart_titlecase_name hn s
    else titlecase_text s

/-- Modelled from the spec: step 6 of the §4.3 canonicalization policy, the
match-free fallback normalization (name-specific capitalization for `name`,
title-casing otherwise), used to state what `correct_value_by_type` degrades
to when every reference vocabulary is empty. -/
def fallback_normalize (hn : String → String) (v : String)
    (col_type : String) : String :=
  let s := PyStr.pyStrip v
  if s = "" then ""
  else if col_type = "name" then smart_titlecase_name hn s
  else titlecase_text s

/-- Which of the name / city columns exist in the input table (the
`columns_config` entries that are present and found in `df.columns`). -/
structure DetectCfg where
  hasName : Bool
  hasCity : Bool

/-- An input row restricted to the two columns that feed duplicate
detection; `none` models a NaN cell. -/
structure RawRow where
  nameCell : Option String
  cityCell : Option String

/-- A row after canonicalization: the overwritten name column and the added
`<city>_canonical` column. -/
structure CanonRow where
  nameVal : String
  cityCanon : String
deriving DecidableEq

/-- Model of `df[col].astype(str).replace(mapping)`: exact-value
replacement by the per-column manual mapping. -/
def apply_mapping (mm : List (String × String)) (v : String) : String :=
  (List.lookup v mm).getD v

/-- The canonicalization steps of `apply_fixes` applied to one row: fillna
plus `normalize_whitespace` on object columns, manual mappings, then
`correct_value_by_type` on the name column (overwritten) and the city
column (into the canonical column). -/
def canonical_row (refs : Refs) (sim : String → String → ℚ)
    (hn : String → String) (fuzzy_threshold : ℚ) (cfg : DetectCfg)
    (mmName mmCity : List (String × String)) (r : RawRow) : CanonRow :=
  let n0 := PyStr.normalize_whitespace (r.nameCell.getD "")
  let c0 := PyStr.normalize_whitespace (r.cityCell.getD "")
  let n1 := apply_mapping mmName n0
  let c1 := apply_mapping mmCity c0
  ⟨if cfg.hasName then correct_value_by_type refs sim hn fuzzy_threshold n1 "name"
    else n1,
   if cfg.hasCity then correct_value_by_type refs sim hn fuzzy_threshold c1 "city"
    else ""⟩

/-- Model of the `_block_key` recipe: lowercased first character of the
(canonicalized) name column and lowercased first three characters of the
canonical city column, pipe-joined, each part present only when its column
exists. -/
def block_key_of (cfg : DetectCfg) (r : CanonRow) : String :=
  PyStr.joinStr "|"
    ((if cfg.hasName then [PyStr.pyLower (PyStr.strTake 1 r.nameVal)] else []) ++
     (if cfg.hasCity then [PyStr.pyLower (PyStr.strTake 3 r.cityCanon)] else []))

/-- Model of the per-pair score of `apply_fixes`: name similarity on
lowercased canonicalized names (0 when either is empty or the column is
absent), combined `0.75 / 0.25` with the lowercased canonical-city
similarity when both city values are nonempty. -/
def pair_score (cfg : DetectCfg) (sim : String → String → ℚ)
    (crows : List CanonRow) (i j : Nat) : ℚ :=
  let ri := crows.getD i ⟨"", ""⟩
  let rj := crows.getD j ⟨"", ""⟩
  let n1 := PyStr.pyLower ri.nameVal
  let n2 := PyStr.pyLower rj.nameVal
  let base : ℚ := if cfg.hasName ∧ n1 ≠ "" ∧ n2 ≠ "" then sim n1 n2 else 0
  if cfg.hasCity then
    let c1 := PyStr.pyLower ri.cityCanon
    let c2 := PyStr.pyLower rj.cityCanon
    if c1 ≠ "" ∧ c2 ≠ "" then 3/4 * base + 1/4 * sim c1 c2 else base
  else base

/-- Ordered index pairs `(i, j)` with `i` before `j`, as produced by the
nested positional loops over one bucket's index list. -/
def pairs_of_list : List Nat → List (Nat × Nat)
  | [] => []
  | i :: rest => rest.map (fun j => (i, j)) ++ pairs_of_list rest

/-- One candidate duplicate pair, as appended to `dup_pairs`. -/
structure DupPair where
  row_i : Nat
  row_j : Nat
  score : ℚ
deriving DecidableEq

/-- The indices of one `groupby('_block_key')` bucket: the row positions
whose block key equals `k`, in ascending order (pandas
`groupby(...).indices`). -/
def block_indices (cfg : DetectCfg) (crows : List CanonRow) (k : String) :
    List Nat :=
  (List.range crows.length).filter
    (fun i => decide (block_key_of cfg (crows.getD i ⟨"", ""⟩) = k))

/-- The pairs appended for one bucket: every ordered intra-bucket index
pair whose combined score reaches the threshold, with its score. -/
def block_chunk (cfg : DetectCfg) (sim : String → String → ℚ)
    (fuzzy_threshold : ℚ) (crows : List CanonRow) (k : String) :
    List DupPair :=
  ((pairs_of_list (block_indices cfg crows k)).filter
      (fun ij => decide (fuzzy_threshold ≤ pair_score cfg sim crows ij.1 ij.2))).map
    (fun ij => ⟨ij.1, ij.2, pair_score cfg sim crows ij.1 ij.2⟩)

/-- Model of step 6 of `apply_fixes` (duplicate detection): group row
indices by `_block_key` (pandas `groupby` enumerates keys in sorted order),
score every intra-bucket pair, and keep the pairs at or above the
threshold.  When the city column is absent the source evaluates
`None + "_canonical"` at the first scored pair; the resulting `TypeError`
is caught and the whole pass yields an empty pair table, so that branch is
the empty list. -/
def detect_pairs (cfg : DetectCfg) (sim : String → String → ℚ)
    (fuzzy_threshold : ℚ) (crows : List CanonRow) : List DupPair :=
  if cfg.hasCity = false then []
  else
    let keys := List.insertionSort (· ≤ ·)
      (unique_first (crows.map (block_key_of cfg)))
    keys.flatMap (block_chunk cfg sim fuzzy_threshold crows)

/-- The duplicate-pair output of `apply_fixes` for a table holding a name
and/or city column: canonicalize every row, then detect duplicates at the
same `fuzzy_threshold`. -/
def apply_fixes_pairs (refs : Refs) (sim : String → String → ℚ)
    (hn : String → String) (cfg : DetectCfg)
    (mmName mmCity : List (String × String)) (fuzzy_threshold : ℚ)
    (rows : List RawRow) : List DupPair :=
  detect_pairs cfg sim fuzzy_threshold
    (rows.map (canonical_row refs sim hn fuzzy_threshold cfg mmName mmCity))

end Fixes

/-- A concrete instance of the external `nameparser.HumanName` formatter
parameter: the identity formatter (parse and re-render without change),
used to instantiate the abstract parameter in concrete evaluations. -/
def nameModel : String → String := fun s => s

namespace Cleaning

/-- The process-wide state of `ai/cleaning.py`: the loaded user mappings
and whitelist, the external People Data Labs normalizer (`none` models any
failure, which `call_pdl_clean` swallows), the three reference lists loaded
at import time, and the external similarity scorer. -/
structure CleanEnv where
  user_mappings : String → Option String
  whitelist : String → Bool
  pdl : String → String → Option String
  known_names : List String
  known_cities : List String
  known_countries : List String
  sim : String → String → ℚ

/-- The cells of one reference column: `pd.read_csv(...)[col]` with a
missing file, a parse error or a missing column all caught and collapsed to
the empty list, then `dropna`. -/
def col_list (r : Fixes.LoadResult) (col : String) : List String :=
  match r with
  | .ok df =>
    match List.lookup col df with
    | some cells => cells.filterMap id
    | none => []
  | _ => []

/-- Model of `load_reference_data`: names, cities and countries lists, each
empty when its backing CSV fails to load. -/
def load_reference_data (namesR citiesR countriesR : Fixes.LoadResult) :
    List String × List String × List String :=
  (col_list namesR "name", col_list citiesR "city", col_list countriesR "country")

/-- Model of `fuzzy_fallback`: the best candidate when its score reaches
the threshold, otherwise `None`. -/
def fuzzy_fallback (env : CleanEnv) (value : String)
    (candidates : List String) (threshold : ℚ) : Option String :=
  if value = "" ∨ candidates = [] then none
  else
    match Scorer.extract_one env.sim value candidates with
    | some (m, score) => if threshold ≤ score then some m else none
    | none => none

/-- The reference list consulted by `suggest_corrections_for_value` for a
given column hint. -/
def ref_list_for (env : CleanEnv) (col_hint : String) : List String :=
  if col_hint = "name" ∨ col_hint = "person" ∨ col_hint = "student" then
    env.known_names
  else if col_hint = "city" then env.known_cities
  else if col_hint = "country" then env.known_countries
  else []

/-- The People Data Labs stage of `suggest_corrections_for_value`: only
consulted for the four listed hints; a truthy candidate differing from the
input beyond letter case is returned. -/
def pdl_stage (env : CleanEnv) (v : String) (col_hint : String) :
    Option String :=
  if col_hint = "country" ∨ col_hint = "city" ∨ col_hint = "company" ∨
      col_hint = "organization" then
    match env.pdl v col_hint with
    | some p =>
      if p ≠ "" ∧ PyStr.pyLower p ≠ PyStr.pyLower v then some p else none
    | none => none
  else none

/-- Model of `suggest_corrections_for_value`: user mapping, then the
normalization service, then fuzzy fallback at threshold 88; case-only
candidates from the latter two stages are dropped. -/
def suggest_corrections_for_value (env : CleanEnv) (value : String)
    (col_hint : String) : Option String × Option String :=
  let v := PyStr.pyStrip value
  if v = "" then (none, none)
  else
    match env.user_mappings (PyStr.pyLower v) with
    | some target => (some target, some "user")
    | none =>
      match pdl_stage env v col_hint with
      | some p => (some p, some "pdl")
      | none =>
        match fuzzy_fallback env v (ref_list_for env col_hint) 88 with
        | some f =>
          if f ≠ "" ∧ PyStr.pyLower f ≠ PyStr.pyLower v then
            (some f, some "fuzzy")
          else (none, none)
        | none => (none, none)

/-- One emitted change-log record (`append_changelog` argument); the
wall-clock timestamp field is outside the model. -/
structure ChangeEntry where
  column : String
  original : String
  corrected : String
  method : String
deriving DecidableEq

/-- The string a cell is compared and corrected as:
`str(val).strip() if val is not None else ""`. -/
def val_str_of (val : Option String) : String :=
  match val with
  | some s => PyStr.pyStrip s
  | none => ""

/-- The per-cell body of the `clean_dataframe` loop: whitelisted cells are
appended unchanged (the original object, not the stripped string); a truthy
suggestion differing from the stripped value is applied and logged;
otherwise the stripped value is appended. -/
def clean_cell (env : CleanEnv) (col : String) (val : Option String) :
    Option String × List ChangeEntry :=
  let v := val_str_of val
  if env.whitelist (PyStr.pyLower v) then (val, [])
  else
    match suggest_corrections_for_value env v (PyStr.pyLower col) with
    | (some sug, src) =>
      if sug ≠ "" ∧ sug ≠ v then (some sug, [⟨col, v, sug, src.getD ""⟩])
      else (some v, [])
    | (none, _) => (some v, [])

/-- The identifier keywords of `is_identifier_column`. -/
def keywords : List String :=
  ["roll", "id", "emp", "phone", "mobile", "adhar", "aadhar", "ssn"]

/-- Whether the lowercased column name contains an identifier keyword. -/
def keyword_hit (col : String) : Bool :=
  keywords.any (fun k => PyStr.containsSub k (PyStr.pyLower col))

/-- The fraction of non-null cells that are purely numeric
(`(s.str.isnumeric()).mean()`), 0 for an empty column. -/
def numeric_frac (cells : List (Option String)) : ℚ :=
  let s := cells.filterMap id
  if s.length = 0 then 0
  else (s.countP PyStr.isNumericStr : ℚ) / s.length

/-- The mean length of the non-null cells (`s.str.len().mean()`), 0 for an
empty column. -/
def avg_len (cells : List (Option String)) : ℚ :=
  let s := cells.filterMap id
  if s.length = 0 then 0
  else ((s.map (fun x => x.data.length)).sum : ℚ) / s.length

/-- Model of `is_identifier_column`: an identifier keyword in the column
name, or strictly more than 80% numeric non-null values with mean length
strictly below 12. -/
def is_identifier_column (col : String) (cells : List (Option String)) :
    Bool :=
  if keyword_hit col then true
  else decide (4/5 < numeric_frac cells ∧ avg_len cells < 12)

/-- One column of the `clean_dataframe` loop: identifier columns are
skipped (`continue`), other columns are cleaned cell by cell. -/
def clean_column (env : CleanEnv) (col : String)
    (cells : List (Option String)) :
    List (Option String) × List ChangeEntry :=
  if is_identifier_column col cells then (cells, [])
  else
    let outs := cells.map (clean_cell env col)
    (outs.map Prod.fst, outs.flatMap Prod.snd)

/-- Model of `clean_dataframe` over the object-typed columns of the input
table: the cleaned columns plus the appended change-log entries. -/
def clean_dataframe (env : CleanEnv)
    (df : List (String × List (Option String))) :
    List (String × List (Option String)) × List ChangeEntry :=
  (df.map (fun p => (p.1, (clean_column env p.1 p.2).1)),
   df.flatMap (fun p => (clean_column env p.1 p.2).2))

end Cleaning

/-- Concrete environment for the C1 witness: an override for `usa` and a
reference vocabulary containing `USA`. -/
def c1Env : Cleaning.CleanEnv :=
  ⟨fun s => if s = "usa" then some "United States" else none,
   fun _ => false, fun _ _ => none, [], [], ["USA"], Scorer.ratioModel⟩

/-- Concrete environment for the C2 witness: `nasa` is whitelisted and the
country vocabulary would otherwise exactly match the value. -/
def c2Env : Cleaning.CleanEnv :=
  ⟨fun _ => none, fun s => s = "nasa", fun _ _ => none, [], [],
   ["Nasa"], Scorer.ratioModel⟩

/-- Concrete environment for the C10 witness: the service suggests a
case-variant of the value and the fuzzy stage's best candidate is the value
itself up to case. -/
def c10Env : Cleaning.CleanEnv :=
  ⟨fun _ => none, fun _ => false,
   fun v h => if v = "india" ∧ h = "country" then some "INDIA" else none,
   [], [], ["india"], Scorer.ratioModel⟩

/-- Inert environment for the C8 counterexample: no mappings, no whitelist,
no service, empty reference lists. -/
def c8Env : Cleaning.CleanEnv :=
  ⟨fun _ => none, fun _ => false, fun _ _ => none, [], [], [],
   Scorer.ratioModel⟩

/-- A column in which exactly 80% of the non-null values are purely
numeric (the claim's boundary). -/
def c8Cells : List (Option String) :=
  [some "101", some "102", some "103", some "104", some "abc "]

/-- Reference state for the C9 counterexample: a city vocabulary holding
the single canonical value `Abcde Abcde`. -/
def c9Refs : Fixes.Refs :=
  Fixes.build_reference_sets .missing .missing
    (.ok [("city", [some "Abcde Abcde"])])

/-- Reference state for the C9 amended-theorem witness. -/
def c9WitRefs : Fixes.Refs :=
  Fixes.build_reference_sets .missing .missing
    (.ok [("city", [some "New York"])])

/-- Strict lexicographic order on `(row_i, row_j)` index pairs. -/
def rowLex (a b : Nat × Nat) : Prop :=
  a.1 < b.1 ∨ (a.1 = b.1 ∧ a.2 ≤ b.2)

instance : DecidableRel rowLex := fun a b => by
  unfold rowLex
  infer_instance

/-- Input rows for the C3 counterexample: two blocks whose sorted block
keys (`app` before `zeb`) reverse the row order. -/
def c3Rows : List Fixes.RawRow :=
  [⟨none, some "Zebra"⟩, ⟨none, some "Zebra"⟩,
   ⟨none, some "Apple"⟩, ⟨none, some "Apple"⟩]

/-- Reference state for the C4 counterexample: a city vocabulary holding
`New York`. -/
def c4Refs : Fixes.Refs :=
  Fixes.build_reference_sets .missing .missing
    (.ok [("city", [some "New York"])])

/-- Input rows for the C4 counterexample. -/
def c4Rows : List Fixes.RawRow :=
  [⟨some "Anna", some "York"⟩, ⟨some "Anna", some "Yorl"⟩]

/-- Canonical rows for the C4 amended-theorem witness. -/
def c4CanonRows : List Fixes.CanonRow :=
  [⟨"", "Apple"⟩, ⟨"", "Apple"⟩]

namespace PyStr

theorem dropWhile_head_not (p : Char → Bool) (l : List Char) (c : Char)
    (cs : List Char) (h : l.dropWhile p = c :: cs) : p c = false := by
  induction l with
  | nil => simp [List.dropWhile] at h
  | cons a as ih =>
    rw [List.dropWhile_cons] at h
    by_cases hp : p a
    · rw [if_pos hp] at h
      exact ih h
    · rw [if_neg hp] at h
      cases h
      exact Bool.not_eq_true _ ▸ hp

theorem dropWhile_eq_self_of_head (p : Char → Bool) (l : List Char)
    (h : ∀ c, l.head? = some c → p c = false) : l.dropWhile p = l := by
  cases l with
  | nil => rfl
  | cons a as =>
    rw [List.dropWhile_cons, if_neg]
    rw [h a rfl]
    exact Bool.false_ne_true

theorem dropWhile_dropWhile (p : Char → Bool) (l : List Char) :
    (l.dropWhile p).dropWhile p = l.dropWhile p := by
  apply dropWhile_eq_self_of_head
  intro c hc
  cases hd : l.dropWhile p with
  | nil => rw [hd] at hc; simp at hc
  | cons a as =>
    rw [hd] at hc
    simp only [List.head?_cons, Option.some.injEq] at hc
    subst hc
    exact dropWhile_head_not p l _ as hd

theorem getLast?_dropWhile (p : Char → Bool) (l : List Char)
    (hne : l.dropWhile p ≠ []) :
    (l.dropWhile p).getLast? = l.getLast? := by
  induction l with
  | nil => simp [List.dropWhile] at hne
  | cons a as ih =>
    rw [List.dropWhile_cons]
    rw [List.dropWhile_cons] at hne
    by_cases hp : p a
    · rw [if_pos hp] at hne ⊢
      rw [ih hne]
      cases as with
      | nil => simp [List.dropWhile] at hne
      | cons b bs => rw [List.getLast?_cons_cons]
    · rw [if_neg hp]

theorem stripChars_idem (l : List Char) :
    stripChars (stripChars l) = stripChars l := by
  unfold stripChars
  have h1 : ((((l.dropWhile Char.isWhitespace).reverse.dropWhile
      Char.isWhitespace).reverse).dropWhile Char.isWhitespace) =
      ((l.dropWhile Char.isWhitespace).reverse.dropWhile
        Char.isWhitespace).reverse := by
    apply dropWhile_eq_self_of_head
    intro c hc
    rw [List.head?_reverse] at hc
    by_cases hune : (l.dropWhile Char.isWhitespace).reverse.dropWhile
        Char.isWhitespace = []
    · rw [hune] at hc
      simp at hc
    · rw [getLast?_dropWhile _ _ hune, List.getLast?_reverse] at hc
      cases htl : l.dropWhile Char.isWhitespace with
      | nil => rw [htl] at hc; simp at hc
      | cons a as =>
        rw [htl] at hc
        simp only [List.head?_cons, Option.some.injEq] at hc
        subst hc
        exact dropWhile_head_not _ _ _ _ htl
  rw [h1, List.reverse_reverse, dropWhile_dropWhile]

theorem pyStrip_idem (s : String) : pyStrip (pyStrip s) = pyStrip s :=
  congrArg String.mk (stripChars_idem s.data)

end PyStr

theorem toNat_ofNat_of_valid {n : Nat} (h : n.isValidChar) :
    (Char.ofNat n).toNat = n := by
  rw [Char.ofNat, dif_pos h]
  rfl

theorem toNat_toUpper (c : Char) :
    (Char.toUpper c).toNat =
      if 97 ≤ c.toNat ∧ c.toNat ≤ 122 then c.toNat - 32 else c.toNat := by
  by_cases h : 97 ≤ c.toNat ∧ c.toNat ≤ 122
  · rw [if_pos h]
    simp only [Char.toUpper]
    rw [if_pos h]
    exact toNat_ofNat_of_valid (Or.inl (by omega))
  · rw [if_neg h]
    simp only [Char.toUpper]
    rw [if_neg h]

theorem toNat_toLower (c : Char) :
    (Char.toLower c).toNat =
      if 65 ≤ c.toNat ∧ c.toNat ≤ 90 then c.toNat + 32 else c.toNat := by
  by_cases h : 65 ≤ c.toNat ∧ c.toNat ≤ 90
  · rw [if_pos h]
    simp only [Char.toLower]
    rw [if_pos h]
    exact toNat_ofNat_of_valid (Or.inl (by omega))
  · rw [if_neg h]
    simp only [Char.toLower]
    rw [if_neg h]

theorem toUpper_eq_self {c : Char} (h : ¬(97 ≤ c.toNat ∧ c.toNat ≤ 122)) :
    Char.toUpper c = c := by
  simp only [Char.toUpper]
  rw [if_neg h]

theorem toLower_eq_self {c : Char} (h : ¬(65 ≤ c.toNat ∧ c.toNat ≤ 90)) :
    Char.toLower c = c := by
  simp only [Char.toLower]
  rw [if_neg h]

theorem toUpper_toUpper (c : Char) :
    (Char.toUpper c).toUpper = Char.toUpper c := by
  apply toUpper_eq_self
  rw [toNat_toUpper]
  by_cases h : 97 ≤ c.toNat ∧ c.toNat ≤ 122
  · rw [if_pos h]; omega
  · rw [if_neg h]; omega

theorem toLower_toLower (c : Char) :
    (Char.toLower c).toLower = Char.toLower c := by
  apply toLower_eq_self
  rw [toNat_toLower]
  by_cases h : 65 ≤ c.toNat ∧ c.toNat ≤ 90
  · rw [if_pos h]; omega
  · rw [if_neg h]; omega

theorem toLower_toUpper (c : Char) :
    (Char.toUpper c).toLower = Char.toLower c := by
  by_cases h : 97 ≤ c.toNat ∧ c.toNat ≤ 122
  · have h1 : (Char.toUpper c).toNat = c.toNat - 32 := by
      rw [toNat_toUpper, if_pos h]
    rw [toLower_eq_self (c := c) (by omega)]
    simp only [Char.toLower]
    rw [if_pos (by rw [h1]; omega : 65 ≤ (Char.toUpper c).toNat ∧
      (Char.toUpper c).toNat ≤ 90)]
    rw [h1]
    have h2 : c.toNat - 32 + 32 = c.toNat := by omega
    rw [h2, Char.ofNat_toNat]
  · rw [toUpper_eq_self h]

theorem isCased_toUpper (c : Char) :
    PyStr.isCased (Char.toUpper c) = PyStr.isCased c := by
  unfold PyStr.isCased
  rw [toNat_toUpper]
  by_cases h : 97 ≤ c.toNat ∧ c.toNat ≤ 122
  · rw [if_pos h]
    rw [decide_eq_decide]
    omega
  · rw [if_neg h]

theorem isCased_toLower (c : Char) :
    PyStr.isCased (Char.toLower c) = PyStr.isCased c := by
  unfold PyStr.isCased
  rw [toNat_toLower]
  by_cases h : 65 ≤ c.toNat ∧ c.toNat ≤ 90
  · rw [if_pos h]
    rw [decide_eq_decide]
    omega
  · rw [if_neg h]

theorem ws_toNat_lt {c : Char} (h : c.isWhitespace = true) : c.toNat < 33 := by
  simp only [Char.isWhitespace, Bool.or_eq_true, decide_eq_true_eq] at h
  rcases h with ((h | h) | h) | h <;> subst h <;> decide

theorem not_ws_of_ge_64 {c : Char} (h : 64 ≤ c.toNat) :
    c.isWhitespace = false := by
  by_contra h2
  have h3 := ws_toNat_lt (c := c) (by
    cases hw : c.isWhitespace
    · exact absurd hw h2
    · rfl)
  omega

theorem cased_ge_64 {c : Char} (h : PyStr.isCased c = true) : 64 ≤ c.toNat := by
  unfold PyStr.isCased at h
  rw [decide_eq_true_eq] at h
  omega

theorem ws_titleChar (b : Bool) (c : Char) :
    (PyStr.titleChar b c).isWhitespace = c.isWhitespace := by
  unfold PyStr.titleChar
  by_cases h : PyStr.isCased c = true
  · rw [if_pos h]
    have hge := cased_ge_64 h
    have hcase : ∀ d : Char, 64 ≤ d.toNat →
        d.isWhitespace = c.isWhitespace := fun d hd => by
      rw [not_ws_of_ge_64 hd, not_ws_of_ge_64 hge]
    cases b
    · rw [if_neg Bool.false_ne_true]
      apply hcase
      rw [toNat_toUpper]
      by_cases hr : 97 ≤ c.toNat ∧ c.toNat ≤ 122
      · rw [if_pos hr]; omega
      · rw [if_neg hr]; omega
    · rw [if_pos rfl]
      apply hcase
      rw [toNat_toLower]
      by_cases hr : 65 ≤ c.toNat ∧ c.toNat ≤ 90
      · rw [if_pos hr]; omega
      · rw [if_neg hr]; omega
  · rw [if_neg h]

theorem isCased_titleChar (b : Bool) (c : Char) :
    PyStr.isCased (PyStr.titleChar b c) = PyStr.isCased c := by
  unfold PyStr.titleChar
  by_cases h : PyStr.isCased c = true
  · rw [if_pos h]
    cases b
    · rw [if_neg Bool.false_ne_true, isCased_toUpper]
    · rw [if_pos rfl, isCased_toLower]
  · rw [if_neg h]

theorem toLower_titleChar (b : Bool) (c : Char) :
    (PyStr.titleChar b c).toLower = c.toLower := by
  unfold PyStr.titleChar
  by_cases h : PyStr.isCased c = true
  · rw [if_pos h]
    cases b
    · rw [if_neg Bool.false_ne_true, toLower_toUpper]
    · rw [if_pos rfl, toLower_toLower]
  · rw [if_neg h]

theorem titleChar_titleChar (b : Bool) (c : Char) :
    PyStr.titleChar b (PyStr.titleChar b c) = PyStr.titleChar b c := by
  by_cases h : PyStr.isCased c = true
  · have h2 : PyStr.isCased (PyStr.titleChar b c) = true := by
      rw [isCased_titleChar]; exact h
    have step : ∀ d : Char, PyStr.isCased d = true →
        PyStr.titleChar b d = if b = true then d.toLower else d.toUpper := by
      intro d hd
      unfold PyStr.titleChar
      rw [if_pos hd]
    rw [step _ h2, step _ h]
    cases b <;> simp [toUpper_toUpper, toLower_toLower]
  · have h2 : PyStr.titleChar b c = c := by
      unfold PyStr.titleChar
      rw [if_neg h]
    rw [h2, h2]

theorem titleMap_titleMap (b : Bool) (l : List Char) :
    PyStr.titleMap b (PyStr.titleMap b l) = PyStr.titleMap b l := by
  induction l generalizing b with
  | nil => rfl
  | cons c cs ih =>
    simp only [PyStr.titleMap]
    rw [titleChar_titleChar, isCased_titleChar, ih (PyStr.isCased c)]

theorem map_toLower_titleMap (b : Bool) (l : List Char) :
    (PyStr.titleMap b l).map Char.toLower = l.map Char.toLower := by
  induction l generalizing b with
  | nil => rfl
  | cons c cs ih =>
    simp only [PyStr.titleMap, List.map_cons]
    rw [toLower_titleChar, ih]

theorem titleMap_ne_nil (b : Bool) (l : List Char) (h : l ≠ []) :
    PyStr.titleMap b l ≠ [] := by
  cases l with
  | nil => exact absurd rfl h
  | cons c cs => simp [PyStr.titleMap]

theorem titleMap_all_not_ws (b : Bool) (l : List Char)
    (h : ∀ c ∈ l, c.isWhitespace = false) :
    ∀ c ∈ PyStr.titleMap b l, c.isWhitespace = false := by
  induction l generalizing b with
  | nil =>
    intro c hc
    simp [PyStr.titleMap] at hc
  | cons a as ih =>
    intro c hc
    simp only [PyStr.titleMap, List.mem_cons] at hc
    rcases hc with rfl | hc
    · rw [ws_titleChar]
      exact h a (List.mem_cons_self _ _)
    · exact ih _ (fun d hd => h d (List.mem_cons_of_mem _ hd)) c hc

theorem titleMap_append_space (b : Bool) (w l : List Char) :
    PyStr.titleMap b (w ++ ' ' :: l) =
      PyStr.titleMap b w ++ ' ' :: PyStr.titleMap false l := by
  induction w generalizing b with
  | nil =>
    simp only [List.nil_append, PyStr.titleMap]
    rw [show PyStr.titleChar b ' ' = ' ' from by
        unfold PyStr.titleChar
        rw [if_neg (by decide)],
      show PyStr.isCased ' ' = false from by decide]
  | cons c cs ih =>
    simp only [List.cons_append, List.append_eq, PyStr.titleMap]
    rw [ih]

theorem wordsAux_good (l : List Char) :
    ∀ acc : List Char, (∀ c ∈ acc, c.isWhitespace = false) →
      ∀ w ∈ PyStr.wordsAux l acc,
        w ≠ [] ∧ ∀ c ∈ w, c.isWhitespace = false := by
  induction l with
  | nil =>
    intro acc hacc w hw
    simp only [PyStr.wordsAux] at hw
    by_cases h : acc = []
    · rw [if_pos h] at hw
      simp at hw
    · rw [if_neg h] at hw
      rw [List.mem_singleton] at hw
      subst hw
      exact ⟨by simpa using h, fun c hc => hacc c (List.mem_reverse.1 hc)⟩
  | cons a as ih =>
    intro acc hacc w hw
    simp only [PyStr.wordsAux] at hw
    by_cases hws : a.isWhitespace = true
    · rw [if_pos hws] at hw
      by_cases h : acc = []
      · rw [if_pos h] at hw
        exact ih [] (by simp) w hw
      · rw [if_neg h] at hw
        rcases List.mem_cons.1 hw with rfl | hw2
        · exact ⟨by simpa using h, fun c hc => hacc c (List.mem_reverse.1 hc)⟩
        · exact ih [] (by simp) w hw2
    · rw [if_neg hws] at hw
      refine ih (a :: acc) ?_ w hw
      intro c hc
      rcases List.mem_cons.1 hc with rfl | hc2
      · exact Bool.not_eq_true _ ▸ hws
      · exact hacc c hc2

theorem words_good (l : List Char) :
    ∀ w ∈ PyStr.words l, w ≠ [] ∧ ∀ c ∈ w, c.isWhitespace = false :=
  wordsAux_good l [] (by simp)

theorem wordsAux_append_word (w : List Char)
    (hw : ∀ c ∈ w, c.isWhitespace = false) :
    ∀ l acc : List Char,
      PyStr.wordsAux (w ++ l) acc = PyStr.wordsAux l (w.reverse ++ acc) := by
  induction w with
  | nil =>
    intro l acc
    simp
  | cons c cs ih =>
    intro l acc
    simp only [List.cons_append, List.append_eq, PyStr.wordsAux]
    rw [if_neg (by
      rw [hw c (List.mem_cons_self _ _)]
      exact Bool.false_ne_true)]
    rw [ih (fun d hd => hw d (List.mem_cons_of_mem _ hd)) l (c :: acc)]
    congr 1
    simp

theorem intercalate_cons_cons (x : Char) (a b : List Char)
    (t : List (List Char)) :
    List.intercalate [x] (a :: b :: t) =
      a ++ x :: List.intercalate [x] (b :: t) := by
  simp [List.intercalate]

theorem intercalate_single (x : Char) (a : List Char) :
    List.intercalate [x] [a] = a := by
  simp [List.intercalate]

theorem words_intercalate (ws : List (List Char))
    (h : ∀ w ∈ ws, w ≠ [] ∧ ∀ c ∈ w, c.isWhitespace = false) :
    PyStr.words (List.intercalate [' '] ws) = ws := by
  induction ws with
  | nil => rfl
  | cons w rest ih =>
    have hw := h w (List.mem_cons_self _ _)
    cases rest with
    | nil =>
      rw [intercalate_single]
      unfold PyStr.words
      have hb := wordsAux_append_word w hw.2 [] []
      rw [List.append_nil] at hb
      rw [hb]
      simp only [PyStr.wordsAux, List.append_nil]
      rw [if_neg (by simpa using hw.1), List.reverse_reverse]
    | cons w2 rest2 =>
      rw [intercalate_cons_cons]
      unfold PyStr.words
      have hb := wordsAux_append_word w hw.2
        (' ' :: List.intercalate [' '] (w2 :: rest2)) []
      rw [hb]
      simp only [PyStr.wordsAux, List.append_nil]
      rw [if_pos (by decide), if_neg (by simpa using hw.1),
        List.reverse_reverse]
      have ihr := ih (fun w' hw' => h w' (List.mem_cons_of_mem _ hw'))
      unfold PyStr.words at ihr
      rw [ihr]

theorem titleMap_intercalate (ws : List (List Char)) :
    PyStr.titleMap false (List.intercalate [' '] ws) =
      List.intercalate [' '] (ws.map (PyStr.titleMap false)) := by
  induction ws with
  | nil => rfl
  | cons w rest ih =>
    cases rest with
    | nil =>
      rw [List.map_cons, List.map_nil, intercalate_single, intercalate_single]
    | cons w2 rest2 =>
      rw [intercalate_cons_cons, titleMap_append_space, ih]
      simp [intercalate_cons_cons]

theorem getLast?_intercalate_good (ws : List (List Char)) (hne : ws ≠ [])
    (h : ∀ w ∈ ws, w ≠ [] ∧ ∀ c ∈ w, c.isWhitespace = false) :
    ∃ c, (List.intercalate [' '] ws).getLast? = some c ∧
      c.isWhitespace = false := by
  induction ws with
  | nil => exact absurd rfl hne
  | cons w rest ih =>
    have hw := h w (List.mem_cons_self _ _)
    cases rest with
    | nil =>
      rw [intercalate_single]
      exact ⟨w.getLast hw.1, List.getLast?_eq_getLast w hw.1,
        hw.2 _ (List.getLast_mem hw.1)⟩
    | cons w2 rest2 =>
      rw [intercalate_cons_cons]
      obtain ⟨c, hc1, hc2⟩ := ih (by simp)
        (fun w' hw' => h w' (List.mem_cons_of_mem _ hw'))
      refine ⟨c, ?_, hc2⟩
      rw [List.getLast?_append, List.getLast?_cons, hc1]
      rfl

theorem stripChars_intercalate (ws : List (List Char))
    (h : ∀ w ∈ ws, w ≠ [] ∧ ∀ c ∈ w, c.isWhitespace = false) :
    PyStr.stripChars (List.intercalate [' '] ws) =
      List.intercalate [' '] ws := by
  cases ws with
  | nil => rfl
  | cons w rest =>
    have hw := h w (List.mem_cons_self _ _)
    have hhead : ∀ cc, (List.intercalate [' '] (w :: rest)).head? = some cc →
        cc.isWhitespace = false := by
      intro cc hcc
      obtain ⟨c0, cs0, rfl⟩ : ∃ c0 cs0, w = c0 :: cs0 := by
        cases w with
        | nil => exact absurd rfl hw.1
        | cons c0 cs0 => exact ⟨c0, cs0, rfl⟩
      have hc0 : cc = c0 := by
        cases rest with
        | nil =>
          rw [intercalate_single] at hcc
          simpa using hcc.symm
        | cons w2 rest2 =>
          rw [intercalate_cons_cons] at hcc
          simpa using hcc.symm
      subst hc0
      exact hw.2 _ (List.mem_cons_self _ _)
    have h1 : (List.intercalate [' '] (w :: rest)).dropWhile
        Char.isWhitespace = List.intercalate [' '] (w :: rest) :=
      PyStr.dropWhile_eq_self_of_head _ _ hhead
    obtain ⟨c, hc1, hc2⟩ := getLast?_intercalate_good (w :: rest) (by simp) h
    unfold PyStr.stripChars
    rw [h1]
    have h2 : (List.intercalate [' '] (w :: rest)).reverse.dropWhile
        Char.isWhitespace = (List.intercalate [' '] (w :: rest)).reverse := by
      apply PyStr.dropWhile_eq_self_of_head
      intro d hd
      rw [List.head?_reverse, hc1] at hd
      cases hd
      exact hc2
    rw [h2, List.reverse_reverse]

theorem words_map_title_good (l : List Char) :
    ∀ w ∈ (PyStr.words l).map (PyStr.titleMap false),
      w ≠ [] ∧ ∀ c ∈ w, c.isWhitespace = false := by
  intro w hw
  rw [List.mem_map] at hw
  obtain ⟨w0, hw0, rfl⟩ := hw
  obtain ⟨h1, h2⟩ := words_good l w0 hw0
  exact ⟨titleMap_ne_nil _ _ h1, titleMap_all_not_ws _ _ h2⟩

theorem normWs_title_normWs (s : String) :
    PyStr.normalize_whitespace
        (PyStr.pyTitle (PyStr.normalize_whitespace s)) =
      PyStr.pyTitle (PyStr.normalize_whitespace s) := by
  unfold PyStr.normalize_whitespace PyStr.pyTitle
  congr 1
  rw [titleMap_intercalate]
  exact congrArg (List.intercalate [' '])
    (words_intercalate _ (words_map_title_good s.data))

theorem strip_title_normWs (s : String) :
    PyStr.pyStrip (PyStr.pyTitle (PyStr.normalize_whitespace s)) =
      PyStr.pyTitle (PyStr.normalize_whitespace s) := by
  unfold PyStr.pyStrip PyStr.pyTitle PyStr.normalize_whitespace
  congr 1
  rw [titleMap_intercalate]
  exact stripChars_intercalate _ (words_map_title_good s.data)

theorem strip_normWs (s : String) :
    PyStr.pyStrip (PyStr.normalize_whitespace s) =
      PyStr.normalize_whitespace s := by
  unfold PyStr.pyStrip PyStr.normalize_whitespace
  congr 1
  exact stripChars_intercalate _ (words_good s.data)

theorem lower_title (s : String) :
    PyStr.pyLower (PyStr.pyTitle s) = PyStr.pyLower s := by
  unfold PyStr.pyLower PyStr.pyTitle
  congr 1
  exact map_toLower_titleMap false s.data

theorem title_title (s : String) :
    PyStr.pyTitle (PyStr.pyTitle s) = PyStr.pyTitle s := by
  unfold PyStr.pyTitle
  congr 1
  exact titleMap_titleMap false s.data

theorem titlecase_text_idem (s : String) :
    Fixes.titlecase_text (Fixes.titlecase_text s) = Fixes.titlecase_text s := by
  unfold Fixes.titlecase_text
  rw [normWs_title_normWs, title_title]

theorem strip_titlecase_text (s : String) :
    PyStr.pyStrip (Fixes.titlecase_text s) = Fixes.titlecase_text s :=
  strip_title_normWs s

theorem lower_titlecase_text (s : String) :
    PyStr.pyLower (Fixes.titlecase_text s) =
      PyStr.pyLower (PyStr.normalize_whitespace s) := by
  unfold Fixes.titlecase_text
  exact lower_title _

theorem val_str_stripped (val : Option String) :
    PyStr.pyStrip (Cleaning.val_str_of val) = Cleaning.val_str_of val := by
  cases val with
  | none => rfl
  | some s => exact PyStr.pyStrip_idem s

/-- C1: a value that has a user-approved override mapping (and also an
exact case-insensitive match in the reference vocabulary for its column
hint) is canonicalized to the override's value with method `user` — the
override lookup is consulted first and wins over the automatic stages. -/
theorem c1_override_wins (env : Cleaning.CleanEnv)
    (value col_hint target : String)
    (hne : PyStr.pyStrip value ≠ "")
    (hmap : env.user_mappings (PyStr.pyLower (PyStr.pyStrip value)) =
      some target)
    (_hexact : ∃ r ∈ Cleaning.ref_list_for env col_hint,
      PyStr.pyLower r = PyStr.pyLower (PyStr.pyStrip value)) :
    Cleaning.suggest_corrections_for_value env value col_hint =
      (some target, some "user") := by
  simp only [Cleaning.suggest_corrections_for_value]
  rw [if_neg hne, hmap]

theorem c1_override_wins_witness :
    PyStr.pyStrip " usa " ≠ "" ∧
    Cleaning.suggest_corrections_for_value c1Env " usa " "country" =
      (some "United States", some "user") :=
  ⟨by decide,
   c1_override_wins c1Env " usa " "country" "United States" (by decide)
    (by decide) ⟨"USA", by decide, by decide⟩⟩

/-- C2: a cell whose lowercased stripped form is whitelisted is appended
unchanged — the original cell object, byte for byte, with no suggestion
consulted and no change-log entry. -/
theorem c2_whitelist_byte_for_byte (env : Cleaning.CleanEnv) (col : String)
    (val : Option String)
    (hwl : env.whitelist (PyStr.pyLower (Cleaning.val_str_of val)) = true) :
    Cleaning.clean_cell env col val = (val, []) := by
  simp only [Cleaning.clean_cell]
  rw [if_pos hwl]

theorem c2_whitelist_byte_for_byte_witness :
    Cleaning.clean_cell c2Env "country" (some " NASA ") =
      (some " NASA ", []) :=
  c2_whitelist_byte_for_byte c2Env "country" (some " NASA ") (by decide)

/-- C10: when the override map misses and every candidate the service or
the fuzzy stage can offer differs from the (non-whitelisted, nonempty)
value only by letter case, the cell is reported uncorrected: the stripped
value is returned and no change-log entry is emitted. -/
theorem c10_case_only_candidate_ignored (env : Cleaning.CleanEnv)
    (col : String) (val : Option String)
    (hne : Cleaning.val_str_of val ≠ "")
    (hwl : env.whitelist (PyStr.pyLower (Cleaning.val_str_of val)) = false)
    (hmap : env.user_mappings (PyStr.pyLower (Cleaning.val_str_of val)) =
      none)
    (hpdl : ∀ p, env.pdl (Cleaning.val_str_of val) (PyStr.pyLower col) =
      some p → PyStr.pyLower p = PyStr.pyLower (Cleaning.val_str_of val))
    (hfuz : ∀ f, Cleaning.fuzzy_fallback env (Cleaning.val_str_of val)
        (Cleaning.ref_list_for env (PyStr.pyLower col)) 88 = some f →
      PyStr.pyLower f = PyStr.pyLower (Cleaning.val_str_of val)) :
    Cleaning.clean_cell env col val =
      (some (Cleaning.val_str_of val), []) := by
  have hp : Cleaning.pdl_stage env (Cleaning.val_str_of val)
      (PyStr.pyLower col) = none := by
    simp only [Cleaning.pdl_stage]
    split
    · cases hpe : env.pdl (Cleaning.val_str_of val) (PyStr.pyLower col) with
      | none => rfl
      | some p => simp [hpdl p hpe]
    · rfl
  have hsuggest : Cleaning.suggest_corrections_for_value env
      (Cleaning.val_str_of val) (PyStr.pyLower col) = (none, none) := by
    simp only [Cleaning.suggest_corrections_for_value, val_str_stripped]
    rw [if_neg hne, hmap, hp]
    cases hf : Cleaning.fuzzy_fallback env (Cleaning.val_str_of val)
        (Cleaning.ref_list_for env (PyStr.pyLower col)) 88 with
    | none => rfl
    | some f => simp [hfuz f hf]
  simp only [Cleaning.clean_cell]
  rw [if_neg (by simp [hwl]), hsuggest]

theorem c10_case_only_candidate_ignored_witness :
    Cleaning.clean_cell c10Env "Country" (some " india ") =
      (some "india", []) :=
  c10_case_only_candidate_ignored c10Env "Country" (some " india ")
    (by decide) (by decide) (by decide)
    (by
      intro p hp
      simp only [c10Env] at hp
      simp at hp
      obtain ⟨-, h⟩ := hp
      subst h
      decide)
    (by
      intro f hf
      have hval : Cleaning.fuzzy_fallback c10Env
          (Cleaning.val_str_of (some " india "))
          (Cleaning.ref_list_for c10Env (PyStr.pyLower "Country")) 88 =
          some "india" := by
        with_unfolding_all decide
      rw [hval] at hf
      cases hf
      decide)

/-- C7: a missing or malformed backing CSV loads as `None`, the reference
sets built from failed loads are all empty, `load_reference_data` degrades
to empty lists, and canonicalization against the empty reference state
returns the spec's step-6 match-free fallback normalization for every
value and field type — no failure escapes. -/
theorem c7_missing_reference_degrades :
    Fixes.load_csv_safe .missing = none ∧
    Fixes.load_csv_safe .malformed = none ∧
    Fixes.build_reference_sets .missing .malformed .missing =
      Fixes.emptyRefs ∧
    Cleaning.load_reference_data .missing .malformed .missing =
      ([], [], []) ∧
    ∀ (sim : String → String → ℚ) (hn : String → String) (thr : ℚ)
      (v col_type : String),
      Fixes.correct_value_by_type Fixes.emptyRefs sim hn thr v col_type =
        Fixes.fallback_normalize hn v col_type := by
  refine ⟨rfl, rfl, rfl, rfl, ?_⟩
  intro sim hn thr v col_type
  simp only [Fixes.correct_value_by_type, Fixes.fallback_normalize,
    Fixes.emptyRefs]
  by_cases h0 : PyStr.pyStrip v = ""
  · simp [h0]
  · by_cases h1 : col_type = "country"
    · simp [h0, h1, Fixes.fuzzy_match_one]
    · by_cases h2 : col_type = "city"
      · subst h2
        simp [h0, h1, Fixes.fuzzy_match_one]
      · by_cases h3 : col_type = "name"
        · simp [h0, h1, h2, h3, Fixes.fuzzy_match_one]
        · simp [h0, h1, h2, h3]

/-- Counterexample to C8: a keyword-free column with exactly 80% numeric
values and mean length below 12 is not detected as an identifier column
(the source requires strictly more than 80%), and the cleaning pass does
change one of its cells. -/
theorem c8_exact_eighty_percent_not_protected :
    Cleaning.numeric_frac c8Cells = 4/5 ∧
    Cleaning.avg_len c8Cells < 12 ∧
    Cleaning.is_identifier_column "score" c8Cells = false ∧
    (Cleaning.clean_column c8Env "score" c8Cells).1 =
      [some "101", some "102", some "103", some "104", some "abc"] ∧
    (Cleaning.clean_column c8Env "score" c8Cells).1 ≠ c8Cells := by
  with_unfolding_all decide

/-- C8 (amended): a column whose name contains an identifier keyword, or
in which strictly more than 80% of the non-null values are purely numeric
with mean length below 12, is never canonicalized — the cleaning pass
returns all of its cells unchanged and emits no change-log entry. -/
theorem c8_identifier_columns_untouched (env : Cleaning.CleanEnv)
    (col : String) (cells : List (Option String))
    (h : Cleaning.keyword_hit col = true ∨
      (4/5 < Cleaning.numeric_frac cells ∧ Cleaning.avg_len cells < 12)) :
    Cleaning.clean_column env col cells = (cells, []) := by
  have hid : Cleaning.is_identifier_column col cells = true := by
    simp only [Cleaning.is_identifier_column]
    rcases h with h | h
    · rw [if_pos h]
    · by_cases hk : Cleaning.keyword_hit col = true
      · rw [if_pos hk]
      · rw [if_neg hk]
        exact decide_eq_true h
  simp only [Cleaning.clean_column]
  rw [if_pos hid]

theorem c8_identifier_columns_untouched_witness :
    Cleaning.keyword_hit "roll_no" = true ∧
    Cleaning.clean_column c8Env "roll_no" [some "101", some "102"] =
      ([some "101", some "102"], []) :=
  ⟨by decide,
   c8_identifier_columns_untouched c8Env "roll_no" [some "101", some "102"]
    (Or.inl (by decide))⟩

/-- Counterexample to C9: canonicalization is not idempotent.  At
threshold 90 the value `abcdx abcde` scores below the cutoff (similarity
800/11 ≈ 72.7) and falls back to title-casing, but the title-cased result
`Abcdx Abcde` scores 1000/11 ≈ 90.9 against the reference under the
case-sensitive scorer, so a second application corrects it to
`Abcde Abcde`. -/
theorem c9_canonicalize_not_idempotent :
    Fixes.correct_value_by_type c9Refs Scorer.ratioModel nameModel 90
        "abcdx abcde" "city" = "Abcdx Abcde" ∧
    Fixes.correct_value_by_type c9Refs Scorer.ratioModel nameModel 90
        (Fixes.correct_value_by_type c9Refs Scorer.ratioModel nameModel 90
          "abcdx abcde" "city") "city" = "Abcde Abcde" ∧
    ("Abcde Abcde" : String) ≠ "Abcdx Abcde" := by
  with_unfolding_all decide

theorem correct_empty (refs : Fixes.Refs) (sim : String → String → ℚ)
    (hn : String → String) (thr : ℚ) (t : String) :
    Fixes.correct_value_by_type refs sim hn thr "" t = "" := by
  simp only [Fixes.correct_value_by_type]
  rw [if_pos (by decide : PyStr.pyStrip "" = "")]

theorem correct_generic_eq (refs : Fixes.Refs) (sim : String → String → ℚ)
    (hn : String → String) (thr : ℚ) (v : String) :
    Fixes.correct_value_by_type refs sim hn thr v "generic" =
      if PyStr.pyStrip v = "" then ""
      else Fixes.titlecase_text (PyStr.pyStrip v) := by
  simp only [Fixes.correct_value_by_type]
  by_cases h : PyStr.pyStrip v = ""
  · rw [if_pos h, if_pos h]
  · rw [if_neg h, if_neg h]
    rw [if_neg (by decide : ¬("generic" : String) = "country")]
    rw [if_neg (by decide : ¬("generic" : String) = "city")]
    rw [if_neg (by decide : ¬("generic" : String) = "name")]

theorem correct_city_exact (refs : Fixes.Refs) (sim : String → String → ℚ)
    (hn : String → String) (thr : ℚ) (v : String)
    (hne : PyStr.pyStrip v ≠ "")
    (hmem : refs.city_set.contains (PyStr.pyLower (PyStr.pyStrip v)) = true) :
    Fixes.correct_value_by_type refs sim hn thr v "city" =
      Fixes.titlecase_text (PyStr.pyStrip v) := by
  simp only [Fixes.correct_value_by_type]
  rw [if_neg hne]
  rw [if_neg (by decide : ¬("city" : String) = "country")]
  rw [if_pos trivial]
  rw [if_pos hmem]

theorem correct_country_exact (refs : Fixes.Refs) (sim : String → String → ℚ)
    (hn : String → String) (thr : ℚ) (v : String)
    (hne : PyStr.pyStrip v ≠ "")
    (hmem : refs.country_set.contains
      (PyStr.pyLower (PyStr.pyStrip v)) = true) :
    Fixes.correct_value_by_type refs sim hn thr v "country" =
      Fixes.titlecase_text (PyStr.pyStrip v) := by
  simp only [Fixes.correct_value_by_type]
  rw [if_neg hne]
  rw [if_pos trivial]
  rw [if_pos hmem]

/-- C9 (amended): canonicalization is idempotent for the generic field
type, and for city and country whenever the (whitespace-normalized) input
already has an exact case-insensitive match in its reference set; the
counterexample shows it is not idempotent in general — a fallback-
normalized value can fuzzy-match on a second application because the
re-cased output scores differently under the case-sensitive scorer, and
the name path delegates to the external `nameparser` formatter. -/
theorem c9_idempotent_generic_and_exact (refs : Fixes.Refs)
    (sim : String → String → ℚ) (hn : String → String) (thr : ℚ)
    (v : String) :
    (Fixes.correct_value_by_type refs sim hn thr
        (Fixes.correct_value_by_type refs sim hn thr v "generic")
        "generic" =
      Fixes.correct_value_by_type refs sim hn thr v "generic") ∧
    (PyStr.normalize_whitespace v = v →
      refs.city_set.contains (PyStr.pyLower v) = true →
      Fixes.correct_value_by_type refs sim hn thr
          (Fixes.correct_value_by_type refs sim hn thr v "city") "city" =
        Fixes.correct_value_by_type refs sim hn thr v "city") ∧
    (PyStr.normalize_whitespace v = v →
      refs.country_set.contains (PyStr.pyLower v) = true →
      Fixes.correct_value_by_type refs sim hn thr
          (Fixes.correct_value_by_type refs sim hn thr v "country")
          "country" =
        Fixes.correct_value_by_type refs sim hn thr v "country") := by
  refine ⟨?_, ?_, ?_⟩
  · rw [correct_generic_eq refs sim hn thr v]
    by_cases h : PyStr.pyStrip v = ""
    · rw [if_pos h, correct_empty]
    · rw [if_neg h, correct_generic_eq, strip_titlecase_text]
      by_cases h2 : Fixes.titlecase_text (PyStr.pyStrip v) = ""
      · rw [if_pos h2, h2]
      · rw [if_neg h2, titlecase_text_idem]
  · intro hnorm hmem
    have hs : PyStr.pyStrip v = v := by
      calc PyStr.pyStrip v
          = PyStr.pyStrip (PyStr.normalize_whitespace v) := by rw [hnorm]
        _ = PyStr.normalize_whitespace v := strip_normWs v
        _ = v := hnorm
    by_cases hv : v = ""
    · subst hv
      rw [correct_empty, correct_empty]
    · have hne : PyStr.pyStrip v ≠ "" := by rw [hs]; exact hv
      have hmem1 : refs.city_set.contains
          (PyStr.pyLower (PyStr.pyStrip v)) = true := by
        rw [hs]; exact hmem
      rw [correct_city_exact refs sim hn thr v hne hmem1, hs]
      by_cases ht : Fixes.titlecase_text v = ""
      · rw [ht, correct_empty]
      · rw [correct_city_exact refs sim hn thr (Fixes.titlecase_text v)
          (by rw [strip_titlecase_text]; exact ht)
          (by
            rw [strip_titlecase_text, lower_titlecase_text, hnorm]
            exact hmem)]
        rw [strip_titlecase_text, titlecase_text_idem]
  · intro hnorm hmem
    have hs : PyStr.pyStrip v = v := by
      calc PyStr.pyStrip v
          = PyStr.pyStrip (PyStr.normalize_whitespace v) := by rw [hnorm]
        _ = PyStr.normalize_whitespace v := strip_normWs v
        _ = v := hnorm
    by_cases hv : v = ""
    · subst hv
      rw [correct_empty, correct_empty]
    · have hne : PyStr.pyStrip v ≠ "" := by rw [hs]; exact hv
      have hmem1 : refs.country_set.contains
          (PyStr.pyLower (PyStr.pyStrip v)) = true := by
        rw [hs]; exact hmem
      rw [correct_country_exact refs sim hn thr v hne hmem1, hs]
      by_cases ht : Fixes.titlecase_text v = ""
      · rw [ht, correct_empty]
      · rw [correct_country_exact refs sim hn thr (Fixes.titlecase_text v)
          (by rw [strip_titlecase_text]; exact ht)
          (by
            rw [strip_titlecase_text, lower_titlecase_text, hnorm]
            exact hmem)]
        rw [strip_titlecase_text, titlecase_text_idem]

theorem c9_idempotent_generic_and_exact_witness :
    PyStr.normalize_whitespace "new york" = "new york" ∧
    c9WitRefs.city_set.contains (PyStr.pyLower "new york") = true ∧
    Fixes.correct_value_by_type c9WitRefs Scorer.ratioModel nameModel 88
        (Fixes.correct_value_by_type c9WitRefs Scorer.ratioModel nameModel
          88 "new york" "city") "city" =
      Fixes.correct_value_by_type c9WitRefs Scorer.ratioModel nameModel 88
        "new york" "city" :=
  ⟨by decide, by decide,
   (c9_idempotent_generic_and_exact c9WitRefs Scorer.ratioModel nameModel
      88 "new york").2.1 (by decide) (by decide)⟩

/-- Counterexample to C3: the returned duplicate pairs are `(2,3)` then
`(0,1)` — grouped by sorted block key, not globally sorted by
`(row_i, row_j)`. -/
theorem c3_pairs_not_globally_sorted :
    (Fixes.apply_fixes_pairs Fixes.emptyRefs Scorer.ratioModel nameModel
        ⟨false, true⟩ [] [] 10 c3Rows).map
      (fun p => (p.row_i, p.row_j)) = [(2, 3), (0, 1)] ∧
    ¬ List.Pairwise rowLex
      ((Fixes.apply_fixes_pairs Fixes.emptyRefs Scorer.ratioModel nameModel
          ⟨false, true⟩ [] [] 10 c3Rows).map
        (fun p => (p.row_i, p.row_j))) := by
  with_unfolding_all decide

/-- Counterexample to C4: raising the threshold from 60 to 90 yields
strictly more duplicate pairs.  At 60 the city `York` fuzzy-corrects to
`New York` (similarity 200/3 ≥ 60) while `Yorl` does not, so the two rows
land in different blocks and no pair is produced; at 90 neither corrects,
both rows share block `a|yor`, and the pair scores 93.75 ≥ 90. -/
theorem c4_more_pairs_at_higher_threshold :
    (60 : ℚ) < 90 ∧
    (Fixes.apply_fixes_pairs c4Refs Scorer.ratioModel nameModel
      ⟨true, true⟩ [] [] 60 c4Rows).length = 0 ∧
    (Fixes.apply_fixes_pairs c4Refs Scorer.ratioModel nameModel
      ⟨true, true⟩ [] [] 90 c4Rows).length = 1 := by
  with_unfolding_all decide

/-- C4 (amended): for a fixed canonicalized table the detection stage is
antitone in the threshold — every pair returned at a higher threshold is
also returned at any lower one.  (End to end the claim fails because the
same threshold also drives fuzzy canonicalization and hence the block
keys, as the counterexample shows.) -/
theorem c4_detection_stage_antitone (cfg : Fixes.DetectCfg)
    (sim : String → String → ℚ) (crows : List Fixes.CanonRow)
    (t1 t2 : ℚ) (hle : t1 ≤ t2) (p : Fixes.DupPair)
    (hp : p ∈ Fixes.detect_pairs cfg sim t2 crows) :
    p ∈ Fixes.detect_pairs cfg sim t1 crows := by
  unfold Fixes.detect_pairs at hp ⊢
  by_cases hc : cfg.hasCity = false
  · rw [if_pos hc] at hp
    exact absurd hp (List.not_mem_nil p)
  · rw [if_neg hc] at hp ⊢
    rw [List.mem_flatMap] at hp ⊢
    obtain ⟨k, hk, hpk⟩ := hp
    refine ⟨k, hk, ?_⟩
    unfold Fixes.block_chunk at hpk ⊢
    rw [List.mem_map] at hpk ⊢
    obtain ⟨ij, hij, rfl⟩ := hpk
    refine ⟨ij, ?_, rfl⟩
    rw [List.mem_filter] at hij ⊢
    refine ⟨hij.1, ?_⟩
    have hsc := of_decide_eq_true hij.2
    exact decide_eq_true (le_trans hle hsc)

theorem c4_detection_stage_antitone_witness :
    (⟨0, 1, 25⟩ : Fixes.DupPair) ∈
      Fixes.detect_pairs ⟨false, true⟩ Scorer.ratioModel 10 c4CanonRows :=
  c4_detection_stage_antitone ⟨false, true⟩ Scorer.ratioModel c4CanonRows
    10 25 (by norm_num) ⟨0, 1, 25⟩ (by with_unfolding_all decide)

theorem mem_pairs_of_list {l : List Nat} {p : Nat × Nat}
    (h : p ∈ Fixes.pairs_of_list l) : p.1 ∈ l ∧ p.2 ∈ l := by
  induction l with
  | nil => simp [Fixes.pairs_of_list] at h
  | cons a rest ih =>
    simp only [Fixes.pairs_of_list, List.mem_append, List.mem_map] at h
    rcases h with ⟨b, hb, he⟩ | h
    · subst he
      exact ⟨List.mem_cons_self _ _, List.mem_cons_of_mem _ hb⟩
    · obtain ⟨h1, h2⟩ := ih h
      exact ⟨List.mem_cons_of_mem _ h1, List.mem_cons_of_mem _ h2⟩

theorem pairs_of_list_lt {l : List Nat}
    (hs : List.Pairwise (· < ·) l) {p : Nat × Nat}
    (h : p ∈ Fixes.pairs_of_list l) : p.1 < p.2 := by
  induction l with
  | nil => simp [Fixes.pairs_of_list] at h
  | cons a rest ih =>
    rw [List.pairwise_cons] at hs
    simp only [Fixes.pairs_of_list, List.mem_append, List.mem_map] at h
    rcases h with ⟨b, hb, he⟩ | h
    · subst he
      exact hs.1 _ hb
    · exact ih hs.2 h

/-- Shape of every pair produced by `detect_pairs`: ordered indices and a
shared block key. -/
theorem detect_pairs_shape (cfg : Fixes.DetectCfg)
    (sim : String → String → ℚ) (thr : ℚ) (crows : List Fixes.CanonRow)
    (p : Fixes.DupPair) (hp : p ∈ Fixes.detect_pairs cfg sim thr crows) :
    p.row_i < p.row_j ∧
    Fixes.block_key_of cfg (crows.getD p.row_i ⟨"", ""⟩) =
      Fixes.block_key_of cfg (crows.getD p.row_j ⟨"", ""⟩) := by
  unfold Fixes.detect_pairs at hp
  by_cases hc : cfg.hasCity = false
  · rw [if_pos hc] at hp
    exact absurd hp (List.not_mem_nil p)
  · rw [if_neg hc] at hp
    rw [List.mem_flatMap] at hp
    obtain ⟨k, hk, hpk⟩ := hp
    unfold Fixes.block_chunk at hpk
    rw [List.mem_map] at hpk
    obtain ⟨ij, hij, rfl⟩ := hpk
    rw [List.mem_filter] at hij
    have hsorted : List.Pairwise (· < ·) (Fixes.block_indices cfg crows k) :=
      (List.pairwise_lt_range _).filter _
    have hlt : ij.1 < ij.2 := pairs_of_list_lt hsorted hij.1
    have hin := mem_pairs_of_list hij.1
    have hbk1 := (List.mem_filter.1 hin.1).2
    have hbk2 := (List.mem_filter.1 hin.2).2
    refine ⟨hlt, ?_⟩
    rw [of_decide_eq_true hbk1, of_decide_eq_true hbk2]

/-- C5: every returned duplicate pair joins two rows with the same block
key (for the configuration with both columns: lowercased first letter of
the canonicalized name, pipe, lowercased first three letters of the
canonical city). -/
theorem c5_blocking_soundness (refs : Fixes.Refs)
    (sim : String → String → ℚ) (hn : String → String)
    (cfg : Fixes.DetectCfg) (mmName mmCity : List (String × String))
    (thr : ℚ) (rows : List Fixes.RawRow) (p : Fixes.DupPair)
    (hp : p ∈ Fixes.apply_fixes_pairs refs sim hn cfg mmName mmCity thr rows) :
    Fixes.block_key_of cfg
      ((rows.map (Fixes.canonical_row refs sim hn thr cfg mmName mmCity)).getD
        p.row_i ⟨"", ""⟩) =
    Fixes.block_key_of cfg
      ((rows.map (Fixes.canonical_row refs sim hn thr cfg mmName mmCity)).getD
        p.row_j ⟨"", ""⟩) :=
  (detect_pairs_shape cfg sim thr _ p hp).2

theorem c5_blocking_soundness_witness :
    (⟨2, 3, 25⟩ : Fixes.DupPair) ∈
      Fixes.apply_fixes_pairs Fixes.emptyRefs Scorer.ratioModel nameModel
        ⟨false, true⟩ [] [] 10 c3Rows ∧
    Fixes.block_key_of ⟨false, true⟩
      ((c3Rows.map (Fixes.canonical_row Fixes.emptyRefs Scorer.ratioModel
        nameModel 10 ⟨false, true⟩ [] [])).getD 2 ⟨"", ""⟩) =
    Fixes.block_key_of ⟨false, true⟩
      ((c3Rows.map (Fixes.canonical_row Fixes.emptyRefs Scorer.ratioModel
        nameModel 10 ⟨false, true⟩ [] [])).getD 3 ⟨"", ""⟩) :=
  ⟨by with_unfolding_all decide,
   c5_blocking_soundness Fixes.emptyRefs Scorer.ratioModel nameModel
    ⟨false, true⟩ [] [] 10 c3Rows ⟨2, 3, 25⟩ (by with_unfolding_all decide)⟩

/-- C6: every returned pair has `row_i < row_j`; in particular no self
pair is returned, and the reversed orientation of a returned pair is never
returned. -/
theorem c6_pair_dedup_invariants (refs : Fixes.Refs)
    (sim : String → String → ℚ) (hn : String → String)
    (cfg : Fixes.DetectCfg) (mmName mmCity : List (String × String))
    (thr : ℚ) (rows : List Fixes.RawRow) (p : Fixes.DupPair)
    (hp : p ∈ Fixes.apply_fixes_pairs refs sim hn cfg mmName mmCity thr rows) :
    p.row_i < p.row_j ∧ p.row_i ≠ p.row_j ∧
    ∀ q ∈ Fixes.apply_fixes_pairs refs sim hn cfg mmName mmCity thr rows,
      ¬(q.row_i = p.row_j ∧ q.row_j = p.row_i) := by
  have h1 := (detect_pairs_shape cfg sim thr _ p hp).1
  refine ⟨h1, Nat.ne_of_lt h1, ?_⟩
  intro q hq ⟨hqi, hqj⟩
  have h2 := (detect_pairs_shape cfg sim thr _ q hq).1
  rw [hqi, hqj] at h2
  exact absurd h1 (Nat.lt_asymm h2)

theorem c6_pair_dedup_invariants_witness :
    (2 : Nat) < 3 ∧ (2 : Nat) ≠ 3 ∧
    ∀ q ∈ Fixes.apply_fixes_pairs Fixes.emptyRefs Scorer.ratioModel
        nameModel ⟨false, true⟩ [] [] 10 c3Rows,
      ¬(q.row_i = 3 ∧ q.row_j = 2) :=
  c6_pair_dedup_invariants Fixes.emptyRefs Scorer.ratioModel nameModel
    ⟨false, true⟩ [] [] 10 c3Rows ⟨2, 3, 25⟩ (by with_unfolding_all decide)

theorem uniqueAux_not_mem_seen (seen l : List String) :
    (Fixes.uniqueAux seen l).Nodup ∧
      ∀ x ∈ Fixes.uniqueAux seen l, x ∉ seen := by
  induction l generalizing seen with
  | nil => simp [Fixes.uniqueAux]
  | cons a as ih =>
    simp only [Fixes.uniqueAux]
    by_cases h : a ∈ seen
    · rw [if_pos h]
      exact ih seen
    · rw [if_neg h]
      obtain ⟨hnd, hnot⟩ := ih (a :: seen)
      refine ⟨?_, ?_⟩
      · rw [List.nodup_cons]
        exact ⟨fun hmem => hnot a hmem (List.mem_cons_self _ _), hnd⟩
      · intro x hx
        rcases List.mem_cons.1 hx with rfl | hx2
        · exact h
        · exact fun hc => hnot x hx2 (List.mem_cons_of_mem _ hc)

theorem unique_first_nodup (l : List String) :
    (Fixes.unique_first l).Nodup :=
  (uniqueAux_not_mem_seen [] l).1

theorem keys_sorted_lt (l : List String) :
    List.Pairwise (· < ·)
      (List.insertionSort (· ≤ ·) (Fixes.unique_first l)) := by
  have hsorted : List.Sorted (· ≤ ·)
      (List.insertionSort (· ≤ ·) (Fixes.unique_first l)) :=
    List.sorted_insertionSort _ _
  have hnodup : (List.insertionSort (· ≤ ·) (Fixes.unique_first l)).Nodup :=
    ((List.perm_insertionSort _ _).nodup_iff).2 (unique_first_nodup l)
  exact hsorted.lt_of_le hnodup

theorem pairs_of_list_pairwise_lex {l : List Nat}
    (hs : List.Pairwise (· < ·) l) :
    List.Pairwise
      (fun a b : Nat × Nat => a.1 < b.1 ∨ (a.1 = b.1 ∧ a.2 < b.2))
      (Fixes.pairs_of_list l) := by
  induction l with
  | nil => exact List.Pairwise.nil
  | cons a rest ih =>
    rw [List.pairwise_cons] at hs
    simp only [Fixes.pairs_of_list]
    rw [List.pairwise_append]
    refine ⟨?_, ih hs.2, ?_⟩
    · rw [List.pairwise_map]
      exact hs.2.imp (fun h => Or.inr ⟨rfl, h⟩)
    · intro x hx y hy
      rw [List.mem_map] at hx
      obtain ⟨b, hb, rfl⟩ := hx
      have hy1 := (mem_pairs_of_list hy).1
      exact Or.inl (hs.1 _ hy1)

theorem mem_block_indices_key (cfg : Fixes.DetectCfg)
    (crows : List Fixes.CanonRow) (k : String) (i : Nat)
    (h : i ∈ Fixes.block_indices cfg crows k) :
    Fixes.block_key_of cfg (crows.getD i ⟨"", ""⟩) = k := by
  unfold Fixes.block_indices at h
  exact of_decide_eq_true (List.mem_filter.1 h).2

theorem block_chunk_key (cfg : Fixes.DetectCfg)
    (sim : String → String → ℚ) (thr : ℚ) (crows : List Fixes.CanonRow)
    (k : String) (x : Fixes.DupPair)
    (hx : x ∈ Fixes.block_chunk cfg sim thr crows k) :
    Fixes.block_key_of cfg (crows.getD x.row_i ⟨"", ""⟩) = k := by
  unfold Fixes.block_chunk at hx
  rw [List.mem_map] at hx
  obtain ⟨ij, hij, rfl⟩ := hx
  rw [List.mem_filter] at hij
  exact mem_block_indices_key cfg crows k ij.1 (mem_pairs_of_list hij.1).1

/-- C3 (amended): the returned duplicate-pair sequence is sorted by
ascending block key first (pandas `groupby` enumerates keys in sorted
order) and by `(row_i, row_j)` ascending within each block; it is not in
general globally sorted by `(row_i, row_j)`, as the counterexample
shows. -/
theorem c3_pairs_sorted_by_block (cfg : Fixes.DetectCfg)
    (sim : String → String → ℚ) (thr : ℚ)
    (crows : List Fixes.CanonRow) :
    List.Pairwise
      (fun p q : Fixes.DupPair =>
        Fixes.block_key_of cfg (crows.getD p.row_i ⟨"", ""⟩) <
          Fixes.block_key_of cfg (crows.getD q.row_i ⟨"", ""⟩) ∨
        (Fixes.block_key_of cfg (crows.getD p.row_i ⟨"", ""⟩) =
            Fixes.block_key_of cfg (crows.getD q.row_i ⟨"", ""⟩) ∧
          (p.row_i < q.row_i ∨ (p.row_i = q.row_i ∧ p.row_j < q.row_j))))
      (Fixes.detect_pairs cfg sim thr crows) := by
  unfold Fixes.detect_pairs
  by_cases hc : cfg.hasCity = false
  · rw [if_pos hc]
    exact List.Pairwise.nil
  · rw [if_neg hc]
    rw [List.pairwise_flatMap]
    constructor
    · intro k _
      unfold Fixes.block_chunk
      rw [List.pairwise_map]
      have hsorted : List.Pairwise (· < ·) (Fixes.block_indices cfg crows k) := by
        unfold Fixes.block_indices
        exact (List.pairwise_lt_range _).filter _
      have hfil := (pairs_of_list_pairwise_lex hsorted).filter
        (fun ij => decide (thr ≤ Fixes.pair_score cfg sim crows ij.1 ij.2))
      refine List.Pairwise.imp_of_mem ?_ hfil
      intro a b ha hb hab
      have ha1 := mem_block_indices_key cfg crows k a.1
        (mem_pairs_of_list (List.mem_filter.1 ha).1).1
      have hb1 := mem_block_indices_key cfg crows k b.1
        (mem_pairs_of_list (List.mem_filter.1 hb).1).1
      exact Or.inr ⟨ha1.trans hb1.symm, hab⟩
    · have hkeys := keys_sorted_lt (crows.map (Fixes.block_key_of cfg))
      refine hkeys.imp ?_
      intro k₁ k₂ hlt x hx y hy
      rw [block_chunk_key cfg sim thr crows k₁ x hx,
        block_chunk_key cfg sim thr crows k₂ y hy]
      exact Or.inl hlt

